import Mathlib

/-!
Verification of the Instagram-influencers dataset pipeline
(`build_dataset.py`): a shallow embedding of the pandas-based
transformation from raw Apify post records to the canonical
`posts` table and the aggregated `users` table, together with
proofs of the spec-level properties (schema fail-fast, derived
engagement, sort contract, aggregation identities, CSV shape
and round-trip, and the no-mutation frame property).
-/

namespace IGDataset

/-- A cell value of an in-memory dataframe.  Mirrors the value kinds
occurring in the raw JSON and in the derived tables: strings, integers,
booleans, lists of strings (hashtags / mentions), parsed UTC instants
(datetime64 cells produced by `pd.to_datetime`), and the missing value
(`NaN` / `NaT` / absent JSON key), written `null`. -/
inductive Value where
  | null
  | str (s : String)
  | int (n : Int)
  | bool (b : Bool)
  | strList (l : List String)
  | ts (t : Int)
deriving DecidableEq

/-- Constructor rank used to order cells of distinct kinds; `null` ranks
last, matching pandas' default `na_position="last"` placement of missing
values in `sort_values`. -/
def Value.rank : Value → Nat
  | .bool _ => 0
  | .int _ => 1
  | .ts _ => 2
  | .str _ => 3
  | .strList _ => 4
  | .null => 5

/-- Lexicographic comparison of character lists by code point — the
order Python applies when `sort_values` compares two strings. -/
def charListLe : List Char → List Char → Bool
  | [], _ => true
  | _ :: _, [] => false
  | a :: as, b :: bs => if a = b then charListLe as bs else decide (a < b)

theorem charListLe_refl : ∀ l, charListLe l l = true := by
  intro l
  induction l with
  | nil => rfl
  | cons a as ih => simp [charListLe, ih]

theorem charListLe_total : ∀ a b, charListLe a b || charListLe b a := by
  intro a
  induction a with
  | nil => intro b; simp [charListLe]
  | cons x xs ih =>
    intro b
    cases b with
    | nil => simp [charListLe]
    | cons y ys =>
      by_cases h : x = y
      · subst h; simpa [charListLe] using ih ys
      · have hne : ¬ y = x := fun hyx => h hyx.symm
        rcases lt_or_gt_of_ne h with hxy | hyx
        · simp [charListLe, h, hne, hxy]
        · simp [charListLe, h, hne, hyx]

theorem charListLe_antisymm :
    ∀ a b, charListLe a b = true → charListLe b a = true → a = b := by
  intro a
  induction a with
  | nil =>
    intro b _ hba
    cases b with
    | nil => rfl
    | cons y ys => simp [charListLe] at hba
  | cons x xs ih =>
    intro b hab hba
    cases b with
    | nil => simp [charListLe] at hab
    | cons y ys =>
      by_cases h : x = y
      · subst h
        simp only [charListLe, if_pos rfl] at hab hba
        exact congrArg (x :: ·) (ih ys hab hba)
      · have hne : ¬ y = x := fun hyx => h hyx.symm
        simp only [charListLe, if_neg h, if_neg hne, decide_eq_true_eq]
          at hab hba
        exact absurd (lt_trans hab hba) (lt_irrefl x)

theorem charListLe_trans :
    ∀ a b c, charListLe a b = true → charListLe b c = true →
      charListLe a c = true := by
  intro a
  induction a with
  | nil => intro b c _ _; rfl
  | cons x xs ih =>
    intro b c hab hbc
    cases b with
    | nil => simp [charListLe] at hab
    | cons y ys =>
      cases c with
      | nil => simp [charListLe] at hbc
      | cons z zs =>
        by_cases hxy : x = y
        · subst hxy
          simp only [charListLe, if_pos rfl] at hab
          by_cases hyz : x = z
          · subst hyz
            simp only [charListLe, if_pos rfl] at hbc ⊢
            exact ih ys zs hab hbc
          · simp only [charListLe, if_neg hyz] at hbc ⊢
            exact hbc
        · simp only [charListLe, if_neg hxy, decide_eq_true_eq] at hab
          by_cases hyz : y = z
          · subst hyz
            simp [charListLe, hxy, hab]
          · simp only [charListLe, if_neg hyz, decide_eq_true_eq] at hbc
            have hxz : x < z := lt_trans hab hbc
            simp [charListLe, ne_of_lt hxz, hxz]

/-- Code-point lexicographic comparison of strings (Python's string
order, applied to the underlying character sequences). -/
def strLe (s t : String) : Bool :=
  charListLe s.data t.data

theorem strLe_refl : ∀ s, strLe s s = true := fun _ => charListLe_refl _

theorem strLe_total : ∀ a b, strLe a b || strLe b a :=
  fun a b => charListLe_total a.data b.data

theorem strLe_antisymm :
    ∀ a b, strLe a b = true → strLe b a = true → a = b := by
  intro a b hab hba
  cases a; cases b
  exact congrArg String.mk (charListLe_antisymm _ _ hab hba)

theorem strLe_trans :
    ∀ a b c, strLe a b = true → strLe b c = true → strLe a c = true :=
  fun a b c hab hbc => charListLe_trans a.data b.data c.data hab hbc

/-- Lexicographic comparison of string lists (payload order for the
`strList` kind). -/
def strListLe : List String → List String → Bool
  | [], _ => true
  | _ :: _, [] => false
  | a :: as, b :: bs => if a = b then strListLe as bs else strLe a b

theorem strListLe_refl : ∀ l, strListLe l l = true := by
  intro l
  induction l with
  | nil => rfl
  | cons a as ih => simp [strListLe, ih]

theorem strListLe_total : ∀ a b, strListLe a b || strListLe b a := by
  intro a
  induction a with
  | nil => intro b; simp [strListLe]
  | cons x xs ih =>
    intro b
    cases b with
    | nil => simp [strListLe]
    | cons y ys =>
      by_cases h : x = y
      · subst h; simpa [strListLe] using ih ys
      · have hne : ¬ y = x := fun hyx => h hyx.symm
        rcases Bool.or_eq_true _ _ |>.mp (strLe_total x y) with hxy | hyx
        · simp [strListLe, h, hne, hxy]
        · simp [strListLe, h, hne, hyx]

theorem strListLe_antisymm :
    ∀ a b, strListLe a b = true → strListLe b a = true → a = b := by
  intro a
  induction a with
  | nil =>
    intro b _ hba
    cases b with
    | nil => rfl
    | cons y ys => simp [strListLe] at hba
  | cons x xs ih =>
    intro b hab hba
    cases b with
    | nil => simp [strListLe] at hab
    | cons y ys =>
      by_cases h : x = y
      · subst h
        simp only [strListLe, if_pos rfl] at hab hba
        exact congrArg (x :: ·) (ih ys hab hba)
      · have hne : ¬ y = x := fun hyx => h hyx.symm
        simp only [strListLe, if_neg h, if_neg hne] at hab hba
        exact absurd (strLe_antisymm _ _ hab hba) h

theorem strListLe_trans :
    ∀ a b c, strListLe a b = true → strListLe b c = true →
      strListLe a c = true := by
  intro a
  induction a with
  | nil => intro b c _ _; rfl
  | cons x xs ih =>
    intro b c hab hbc
    cases b with
    | nil => simp [strListLe] at hab
    | cons y ys =>
      cases c with
      | nil => simp [strListLe] at hbc
      | cons z zs =>
        by_cases hxy : x = y
        · subst hxy
          simp only [strListLe, if_pos rfl] at hab
          by_cases hyz : x = z
          · subst hyz
            simp only [strListLe, if_pos rfl] at hbc ⊢
            exact ih ys zs hab hbc
          · simp only [strListLe, if_neg hyz] at hbc ⊢
            exact hbc
        · simp only [strListLe, if_neg hxy] at hab
          by_cases hyz : y = z
          · subst hyz
            simp [strListLe, hxy, hab]
          · simp only [strListLe, if_neg hyz] at hbc
            have hxz2 : strLe x z = true := strLe_trans _ _ _ hab hbc
            by_cases hx : x = z
            · subst hx
              exact absurd (strLe_antisymm _ _ hab hbc) hxy
            · simp [strListLe, hx, hxz2]

/-- Total comparison of cell values, modelling the ascending order used by
`DataFrame.sort_values` (with `na_position="last"`): same-kind cells compare
by payload, different kinds by rank, and `null` sorts after everything. -/
def valueLe (a b : Value) : Bool :=
  match a, b with
  | .str x, .str y => strLe x y
  | .int x, .int y => decide (x ≤ y)
  | .ts x, .ts y => decide (x ≤ y)
  | .bool x, .bool y => !x || y
  | .strList x, .strList y => strListLe x y
  | a, b => decide (a.rank ≤ b.rank)

theorem valueLe_refl : ∀ a, valueLe a a = true := by
  intro a
  cases a <;> simp [valueLe, strListLe_refl, strLe_refl]

theorem valueLe_total : ∀ a b, valueLe a b || valueLe b a := by
  intro a b
  cases a <;> cases b <;> simp only [valueLe, Value.rank] <;>
    first
      | decide
      | (rw [Bool.or_eq_true]; simp only [decide_eq_true_eq]; exact le_total _ _)
      | exact strListLe_total _ _
      | exact strLe_total _ _
      | (rename_i x y; cases x <;> cases y <;> decide)

theorem valueLe_antisymm :
    ∀ a b, valueLe a b = true → valueLe b a = true → a = b := by
  intro a b hab hba
  cases a <;> cases b <;>
    simp only [valueLe, Value.rank, decide_eq_true_eq] at hab hba <;>
    first
      | rfl
      | omega
      | exact congrArg _ (le_antisymm hab hba)
      | exact congrArg _ (strListLe_antisymm _ _ hab hba)
      | exact congrArg _ (strLe_antisymm _ _ hab hba)
      | (rename_i x y; revert hab hba; cases x <;> cases y <;> simp)

theorem valueLe_trans :
    ∀ a b c, valueLe a b = true → valueLe b c = true → valueLe a c = true := by
  intro a b c hab hbc
  cases a <;> cases b <;> cases c <;>
    simp only [valueLe, Value.rank, decide_eq_true_eq] at hab hbc ⊢ <;>
    first
      | rfl
      | omega
      | exact le_trans hab hbc
      | exact strListLe_trans _ _ _ hab hbc
      | exact strLe_trans _ _ _ hab hbc
      | (rename_i x y z; revert hab hbc; cases x <;> cases y <;> cases z <;> decide)

/-- Descending comparison with missing values last, modelling a
`sort_values` key with `ascending=False` and the default
`na_position="last"`: non-null cells compare by `valueLe` reversed, and
`null` sorts after every non-null cell. -/
def valueDescLe (a b : Value) : Bool :=
  match a, b with
  | .null, .null => true
  | .null, _ => false
  | _, .null => true
  | a, b => valueLe b a

theorem valueDescLe_total : ∀ a b, valueDescLe a b || valueDescLe b a := by
  intro a b
  cases a <;> cases b <;> simp [valueDescLe] <;>
    simpa [Bool.or_comm] using valueLe_total _ _

theorem valueDescLe_trans :
    ∀ a b c, valueDescLe a b = true → valueDescLe b c = true →
      valueDescLe a c = true := by
  intro a b c hab hbc
  cases a <;> cases b <;> cases c <;>
    simp_all [valueDescLe] <;>
    exact valueLe_trans _ _ _ hbc hab

/-- A dataframe row: an association list from column label to cell value.
Mirrors one record of a `pd.DataFrame`. -/
abbrev Row := List (String × Value)

/-- Read the cell of `r` at column `c`.  A label absent from the row reads
as the missing value, matching the `NaN` fill that `pd.DataFrame` applies
to records lacking a key. -/
def getCell (r : Row) (c : String) : Value :=
  match r.find? (fun p => p.1 == c) with
  | some p => p.2
  | none => .null

/-- An in-memory dataframe: an ordered list of column labels and the rows.
Rows built by the pipeline carry exactly the labels in `cols`, in order. -/
structure Table where
  cols : List String
  rows : List Row
deriving DecidableEq

/-- Projection of one row onto the column list `cs`, in order. -/
def selectRow (cs : List String) (r : Row) : Row :=
  cs.map (fun c => (c, getCell r c))

/-- Column projection `df[cs]`: keeps the listed columns, in the given
order, reading each cell through `getCell`. -/
def Table.select (t : Table) (cs : List String) : Table :=
  ⟨cs, t.rows.map (selectRow cs)⟩

/-- Apply a rename mapping (an explicit list of `(source, target)` pairs)
to one column label; labels outside the mapping are unchanged. -/
def renameCol (m : List (String × String)) (c : String) : String :=
  match m.find? (fun p => p.1 == c) with
  | some p => p.2
  | none => c

/-- Relabel the keys of one row along a rename mapping. -/
def renameRow (m : List (String × String)) (r : Row) : Row :=
  r.map (fun p => (renameCol m p.1, p.2))

/-- `df.rename(columns=m, inplace=True)` at the value level: relabel the
columns and the per-row keys. -/
def Table.rename (t : Table) (m : List (String × String)) : Table :=
  ⟨t.cols.map (renameCol m), t.rows.map (renameRow m)⟩

/-- Overwrite the cell at an existing column `c` of one row. -/
def setColRow (c : String) (v : Value) (r : Row) : Row :=
  r.map (fun p => if p.1 == c then (c, v) else p)

/-- `df[c] = <elementwise expression>`: writes column `c` with the value
of `f` on each (pre-assignment) row; an existing column is overwritten in
place, a new column is appended on the right, as pandas does. -/
def Table.setCol (t : Table) (c : String) (f : Row → Value) : Table :=
  if t.cols.contains c then
    ⟨t.cols, t.rows.map (fun r => setColRow c (f r) r)⟩
  else
    ⟨t.cols ++ [c], t.rows.map (fun r => r ++ [(c, f r)])⟩

/-- `df.sort_values(..., inplace=True)` with a row comparison `le`:
pandas sorts a multi-column key through `numpy.lexsort`, which is a
stable sort, modelled by `List.mergeSort`. -/
def Table.sortValues (t : Table) (le : Row → Row → Bool) : Table :=
  ⟨t.cols, t.rows.mergeSort le⟩

/-- The sixteen raw columns `build_posts_table` requires. -/
def required_cols : List String :=
  ["id", "shortCode", "type", "productType", "caption", "hashtags",
   "mentions", "url", "likesCount", "commentsCount", "timestamp",
   "ownerUsername", "ownerFullName", "ownerId", "isCommentsDisabled",
   "inputUrl"]

/-- The raw-to-canonical rename table passed to `df.rename`. -/
def rename_map : List (String × String) :=
  [("id", "ig_post_id"), ("shortCode", "shortcode"), ("type", "post_type"),
   ("productType", "product_type"), ("url", "post_url"),
   ("likesCount", "likes"), ("commentsCount", "comments"),
   ("ownerUsername", "owner_username"), ("ownerFullName", "owner_full_name"),
   ("ownerId", "owner_id"), ("inputUrl", "owner_profile_url")]

/-- The fixed output column order of the canonical Post table. -/
def col_order : List String :=
  ["post_id", "ig_post_id", "shortcode", "post_type", "product_type",
   "post_url", "owner_username", "owner_full_name", "owner_id",
   "owner_profile_url", "caption", "hashtags", "mentions", "likes",
   "comments", "engagement_raw", "timestamp", "isCommentsDisabled"]

/-- Failure modes of the build; `schemaValidation missing` models the
`ValueError` raised when required raw columns are absent (the spec's
`SchemaValidationError`), carrying exactly the list of missing columns
that the f-string message reports. -/
inductive BuildError where
  | schemaValidation (missing : List String)
deriving DecidableEq

/-- Python `str(...)` of one scalar cell, the elementwise effect of
`.astype(str)`; note `str(float("nan")) = "nan"`, and booleans print
capitalized. -/
def Value.astype_str : Value → Value
  | .null => .str "nan"
  | .str s => .str s
  | .int n => .str (toString n)
  | .bool b => .str (if b then "True" else "False")
  | .strList l => .str (String.intercalate ", " l)
  | .ts t => .str (toString t)

/-- Fold a digit list into the number it denotes. -/
def digitsToNat (cs : List Char) : Nat :=
  cs.foldl (fun a c => a * 10 + (c.toNat - 48)) 0

/-- Parse the `YYYY-MM-DD` prefix of an ISO-8601 timestamp; returns the
fields and the remaining characters. -/
def parseDate : List Char → Option (Nat × Nat × Nat × List Char)
  | y1 :: y2 :: y3 :: y4 :: h1 :: m1 :: m2 :: h2 :: d1 :: d2 :: rest =>
    if ([y1, y2, y3, y4, m1, m2, d1, d2].all Char.isDigit
          && h1 = '-' && h2 = '-') then
      let y := digitsToNat [y1, y2, y3, y4]
      let mo := digitsToNat [m1, m2]
      let da := digitsToNat [d1, d2]
      if 1 ≤ mo && mo ≤ 12 && 1 ≤ da && da ≤ 31 then
        some (y, mo, da, rest)
      else none
    else none
  | _ => none

/-- Parse the optional `.fff` fractional part and `Z` suffix after the
seconds field. -/
def parseFracZ : List Char → Option Nat
  | [] => some 0
  | ['Z'] => some 0
  | '.' :: a :: b :: c :: rest =>
    if [a, b, c].all Char.isDigit && (rest = [] || rest = ['Z']) then
      some (digitsToNat [a, b, c])
    else none
  | _ => none

/-- Parse the optional `THH:MM:SS[.fff][Z]` part of an ISO-8601
timestamp; a bare date reads as midnight. -/
def parseTime : List Char → Option (Nat × Nat × Nat × Nat)
  | [] => some (0, 0, 0, 0)
  | 'T' :: h1 :: h2 :: c1 :: m1 :: m2 :: c2 :: s1 :: s2 :: rest =>
    if ([h1, h2, m1, m2, s1, s2].all Char.isDigit
          && c1 = ':' && c2 = ':') then
      let h := digitsToNat [h1, h2]
      let mi := digitsToNat [m1, m2]
      let s := digitsToNat [s1, s2]
      if h ≤ 23 && mi ≤ 59 && s ≤ 59 then
        match parseFracZ rest with
        | some ms => some (h, mi, s, ms)
        | none => none
      else none
    else none
  | _ => none

/-- Parse an ISO-8601 timestamp string into a UTC instant, the string
case of `pd.to_datetime(..., errors="coerce", utc=True)`: a malformed or
unparsable string (the empty string included) yields `none` rather than
an error.  The instant is encoded as the lexicographic packing of the
date-time fields, which is strictly monotone in calendar order — the
properties proved here depend only on the ordering of instants, not on
the epoch offset. -/
def parseIso (s : String) : Option Int :=
  match parseDate s.toList with
  | none => none
  | some (y, mo, da, rest) =>
    match parseTime rest with
    | none => none
    | some (h, mi, sec, ms) =>
      some (Int.ofNat
        (((((y * 13 + mo) * 32 + da) * 24 + h) * 60 + mi) * 60 + sec)
          * 1000 + Int.ofNat ms)

/-- Elementwise effect of `pd.to_datetime(col, errors="coerce", utc=True)`
on one cell: strings parse per `parseIso` with failures coerced to `NaT`
(`null`), missing stays missing, already-parsed instants pass through,
and cells of any other kind are modelled as coerced to `null`. -/
def to_datetime_coerce : Value → Value
  | .str s =>
    match parseIso s with
    | some t => .ts t
    | none => .null
  | .ts t => .ts t
  | _ => .null

/-- Elementwise `+` of two cells, the effect of `df["likes"] +
df["comments"]`: integers add, a missing operand propagates (`NaN + x =
NaN`), strings concatenate (Python `+` on object cells), and remaining
kind mixes are modelled as missing. -/
def addValues : Value → Value → Value
  | .int a, .int b => .int (a + b)
  | .str a, .str b => .str (a ++ b)
  | _, _ => .null

/-- The row comparison realized by
`df.sort_values(["owner_username", "timestamp"], ascending=[True, False])`:
lexicographic on the two keys, username ascending and timestamp
descending, missing values last in both keys. -/
def postSortLe (r1 r2 : Row) : Bool :=
  if getCell r1 "owner_username" = getCell r2 "owner_username" then
    valueDescLe (getCell r1 "timestamp") (getCell r2 "timestamp")
  else
    valueLe (getCell r1 "owner_username") (getCell r2 "owner_username")

theorem postSortLe_total : ∀ a b, postSortLe a b || postSortLe b a := by
  intro a b
  unfold postSortLe
  by_cases h : getCell a "owner_username" = getCell b "owner_username"
  · simp [h, valueDescLe_total]
  · have h2 : ¬ getCell b "owner_username" = getCell a "owner_username" :=
      fun hh => h hh.symm
    simp [h, h2, valueLe_total]

theorem postSortLe_trans :
    ∀ a b c, postSortLe a b = true → postSortLe b c = true →
      postSortLe a c = true := by
  intro a b c hab hbc
  unfold postSortLe at *
  by_cases hab1 : getCell a "owner_username" = getCell b "owner_username" <;>
    by_cases hbc1 : getCell b "owner_username" = getCell c "owner_username"
  · simp only [if_pos hab1] at hab
    simp only [if_pos hbc1] at hbc
    simp only [if_pos (hab1.trans hbc1)]
    exact valueDescLe_trans _ _ _ hab hbc
  · have hac : ¬ getCell a "owner_username" = getCell c "owner_username" :=
      fun hh => hbc1 (hab1.symm.trans hh)
    simp only [if_neg hbc1] at hbc
    simp only [hab1, if_neg hbc1]
    exact hbc
  · have hac : ¬ getCell a "owner_username" = getCell c "owner_username" :=
      fun hh => hab1 (hh.trans hbc1.symm)
    simp only [if_neg hab1] at hab
    simp only [← hbc1, if_neg hab1]
    exact hab
  · simp only [if_neg hab1] at hab
    simp only [if_neg hbc1] at hbc
    by_cases hac : getCell a "owner_username" = getCell c "owner_username"
    · exact absurd
        (valueLe_antisymm _ _ hab (hac ▸ hbc)) hab1
    · simp only [if_neg hac]
      exact valueLe_trans _ _ _ hab hbc

/-- The list comprehension
`[c for c in required_cols if c not in df_raw.columns]`: the required
columns absent from the raw table, in `required_cols` order. -/
def missingCols (df_raw : Table) : List String :=
  required_cols.filter (fun c => !df_raw.cols.contains c)

/-- `build_posts_table`: validate the raw schema, project and rename the
required columns, derive `post_id`, parse `timestamp`, derive
`engagement_raw`, sort, and fix the output column order.  The schema
failure carries the missing-column list computed by the same filter as
the Python list comprehension. -/
def build_posts_table (df_raw : Table) : Except BuildError Table :=
  let missing := missingCols df_raw
  if missing.isEmpty then
    let df := df_raw.select required_cols
    let df := df.rename rename_map
    let df := df.setCol "post_id"
      (fun r => (getCell r "shortcode").astype_str)
    let df := df.setCol "timestamp"
      (fun r => to_datetime_coerce (getCell r "timestamp"))
    let df := df.setCol "engagement_raw"
      (fun r => addValues (getCell r "likes") (getCell r "comments"))
    let df := df.sortValues postSortLe
    let df := df.select col_order
    .ok df
  else
    .error (.schemaValidation missing)

/-- One row of the aggregated users table (13 columns: the 4-part group
key and 9 statistics).  Averages are rationals (`NaN` on an empty sample
is `none`); timestamp bounds are `none` when every timestamp in the
group is missing. -/
structure UserRow where
  owner_username : Value
  owner_full_name : Value
  owner_id : Value
  owner_profile_url : Value
  posts_count : Nat
  total_likes : Int
  total_comments : Int
  total_engagement : Int
  avg_likes : Option ℚ
  avg_comments : Option ℚ
  avg_engagement : Option ℚ
  first_post_timestamp : Option Int
  last_post_timestamp : Option Int
deriving DecidableEq

/-- The 4-tuple grouping key of `build_users_table`; missing components
are ordinary key values (`dropna=False`). -/
def userKey (r : Row) : Value × Value × Value × Value :=
  (getCell r "owner_username", getCell r "owner_full_name",
   getCell r "owner_id", getCell r "owner_profile_url")

/-- The integer samples of column `c` over `rows`, skipping missing and
non-numeric cells: the null-skipping behaviour of the pandas `sum` and
`mean` aggregations. -/
def intCells (rows : List Row) (c : String) : List Int :=
  rows.filterMap (fun r =>
    match getCell r c with
    | .int n => some n
    | _ => none)

/-- The parsed-instant samples of column `c` over `rows`, skipping `NaT`:
the null-skipping behaviour of the pandas `min` / `max` aggregations. -/
def tsCells (rows : List Row) (c : String) : List Int :=
  rows.filterMap (fun r =>
    match getCell r c with
    | .ts t => some t
    | _ => none)

/-- Mean of a sample; the empty sample gives `NaN` (`none`). -/
def meanOpt (l : List Int) : Option ℚ :=
  if l.isEmpty then none else some ((l.sum : ℚ) / (l.length : ℚ))

/-- The aggregate row of the group of `rows` keyed by `k`:
`posts_count` is the distinct count of non-null `post_id` (`nunique`),
the totals and means are null-skipping, and the timestamp bounds are the
null-skipping `min` / `max`. -/
def mkUserRow (rows : List Row) (k : Value × Value × Value × Value) :
    UserRow :=
  let grp := rows.filter (fun r => userKey r = k)
  { owner_username := k.1
    owner_full_name := k.2.1
    owner_id := k.2.2.1
    owner_profile_url := k.2.2.2
    posts_count :=
      (((grp.map (fun r => getCell r "post_id")).filter
          (fun v => !(v == Value.null))).dedup).length
    total_likes := (intCells grp "likes").sum
    total_comments := (intCells grp "comments").sum
    total_engagement := (intCells grp "engagement_raw").sum
    avg_likes := meanOpt (intCells grp "likes")
    avg_comments := meanOpt (intCells grp "comments")
    avg_engagement := meanOpt (intCells grp "engagement_raw")
    first_post_timestamp := (tsCells grp "timestamp").min?
    last_post_timestamp := (tsCells grp "timestamp").max? }

/-- `build_users_table`: group the posts by the owner 4-tuple with
`dropna=False` (one group per distinct key, null keys retained),
aggregate each group, and sort by `total_engagement` descending.
(The transient ordering pandas gives the groups before this final sort
is irrelevant here; the distinct keys are collected with `dedup`.) -/
def build_users_table (df_posts : Table) : List UserRow :=
  let keys := (df_posts.rows.map userKey).dedup
  (keys.map (mkUserRow df_posts.rows)).mergeSort
    (fun a b => decide (b.total_engagement ≤ a.total_engagement))

/-- The string Python prints for one cell when the table is written with
`to_csv`; missing values print as the empty field. -/
def cellToString : Value → String
  | .null => ""
  | .str s => s
  | .int n => toString n
  | .bool b => if b then "True" else "False"
  | .strList l =>
    "[" ++ String.intercalate ", "
      (l.map (fun s => (Char.ofNat 39).toString ++ s ++ (Char.ofNat 39).toString))
      ++ "]"
  | .ts t => toString t

/-- Does a field need quoting under minimal CSV quoting?  True when it
holds the delimiter, the quote character, or a line break. -/
def needsQuote (s : String) : Bool :=
  s.toList.any (fun c => c = ',' || c = '"' || c = '\n' || c = '\r')

/-- Double each quote character (the CSV escape inside a quoted field). -/
def dq : List Char → List Char
  | [] => []
  | c :: cs => if c = '"' then c :: c :: dq cs else c :: dq cs

/-- Minimal-quoting CSV encoding of one field, as characters. -/
def escapeChars (s : String) : List Char :=
  if needsQuote s then '"' :: (dq s.toList ++ ['"']) else s.toList

/-- One CSV record: fields joined by the delimiter. -/
def renderRecordChars : List (List Char) → List Char
  | [] => []
  | [f] => f
  | f :: fs => f ++ ',' :: renderRecordChars fs

/-- A CSV file: one line per record, each line terminated. -/
def renderCsvChars (recs : List (List String)) : List Char :=
  (recs.map (fun r => renderRecordChars (r.map escapeChars) ++ ['\n'])).flatten

/-- `df.to_csv(path, index=False)` of a table: a header record of the
column labels followed by one record per row, cells stringified and
minimally quoted. -/
def Table.to_csv (t : Table) : String :=
  (renderCsvChars
    (t.cols ::
      t.rows.map (fun r => t.cols.map (fun c => cellToString (getCell r c))))).asString

/-- The 13 column labels of `users.csv`. -/
def users_cols : List String :=
  ["owner_username", "owner_full_name", "owner_id", "owner_profile_url",
   "posts_count", "total_likes", "total_comments", "total_engagement",
   "avg_likes", "avg_comments", "avg_engagement", "first_post_timestamp",
   "last_post_timestamp"]

/-- Stringify an optional statistic; a missing statistic prints empty. -/
def optToString {α : Type} [ToString α] : Option α → String
  | none => ""
  | some x => toString x

/-- The CSV field strings of one users-table row. -/
def userCellStrings (u : UserRow) : List String :=
  [cellToString u.owner_username, cellToString u.owner_full_name,
   cellToString u.owner_id, cellToString u.owner_profile_url,
   toString u.posts_count, toString u.total_likes,
   toString u.total_comments, toString u.total_engagement,
   optToString u.avg_likes, optToString u.avg_comments,
   optToString u.avg_engagement, optToString u.first_post_timestamp,
   optToString u.last_post_timestamp]

/-- `users.to_csv(path, index=False)`. -/
def usersToCsv (us : List UserRow) : String :=
  (renderCsvChars (users_cols :: us.map userCellStrings)).asString

/-- The file writes `main` performs, in order, as `(path, content)`
pairs: `posts.csv` is written only after `build_posts_table` returns,
so a schema failure escapes before any output file is created or
modified, and `users.csv` follows the users aggregation. -/
def mainOutputs (df_raw : Table) : List (String × String) :=
  match build_posts_table df_raw with
  | .error _ => []
  | .ok pt =>
    [("data/posts.csv", pt.to_csv),
     ("data/users.csv", usersToCsv (build_users_table pt))]

/-! ### Characterization of `build_posts_table` on valid input -/

/-- The working row just before the sort: projected, renamed, with
`post_id` and `engagement_raw` appended and `timestamp` parsed — the
composite of the per-row effects of steps 2-5 of the builder. -/
def preSortRow (r : Row) : Row :=
  let r2 := renameRow rename_map (selectRow required_cols r)
  let r3 := r2 ++ [("post_id", (getCell r2 "shortcode").astype_str)]
  let r4 := setColRow "timestamp"
    (to_datetime_coerce (getCell r3 "timestamp")) r3
  r4 ++ [("engagement_raw",
          addValues (getCell r4 "likes") (getCell r4 "comments"))]

/-- The canonical Post row derived from one raw row, spelled out in the
output column order. -/
def postRow (r : Row) : Row :=
  [("post_id", (getCell r "shortCode").astype_str),
   ("ig_post_id", getCell r "id"),
   ("shortcode", getCell r "shortCode"),
   ("post_type", getCell r "type"),
   ("product_type", getCell r "productType"),
   ("post_url", getCell r "url"),
   ("owner_username", getCell r "ownerUsername"),
   ("owner_full_name", getCell r "ownerFullName"),
   ("owner_id", getCell r "ownerId"),
   ("owner_profile_url", getCell r "inputUrl"),
   ("caption", getCell r "caption"),
   ("hashtags", getCell r "hashtags"),
   ("mentions", getCell r "mentions"),
   ("likes", getCell r "likesCount"),
   ("comments", getCell r "commentsCount"),
   ("engagement_raw",
    addValues (getCell r "likesCount") (getCell r "commentsCount")),
   ("timestamp", to_datetime_coerce (getCell r "timestamp")),
   ("isCommentsDisabled", getCell r "isCommentsDisabled")]

theorem selectRow_preSortRow (r : Row) :
    selectRow col_order (preSortRow r) = postRow r := rfl

/-- The output table of a successful build, stated through the per-row
transform and the stable sort. -/
def postTableOf (t : Table) : Table :=
  ⟨col_order,
   ((t.rows.map preSortRow).mergeSort postSortLe).map (selectRow col_order)⟩

theorem renamed_contains_post_id :
    ((required_cols.map (renameCol rename_map)).contains "post_id") = false :=
  rfl

theorem renamed_contains_timestamp :
    ((List.map (renameCol rename_map) required_cols ++ ["post_id"]).contains
      "timestamp") = true :=
  rfl

theorem renamed_contains_engagement :
    ((List.map (renameCol rename_map) required_cols ++ ["post_id"]).contains
      "engagement_raw") = false :=
  rfl

/-- On a schema-valid raw table the builder succeeds and produces
exactly the sorted, reordered list of per-row canonical records. -/
theorem build_posts_table_ok (t : Table) (h : missingCols t = []) :
    build_posts_table t = .ok (postTableOf t) := by
  unfold build_posts_table
  rw [h]
  unfold Table.select Table.rename Table.setCol Table.sortValues
  simp only [renamed_contains_post_id, renamed_contains_timestamp,
    renamed_contains_engagement, Bool.false_eq_true, eq_self_iff_true,
    List.isEmpty_nil, if_true, if_false, postTableOf, List.map_map]
  rfl

theorem build_ok_missing_nil (t pt : Table)
    (h : build_posts_table t = .ok pt) : missingCols t = [] := by
  by_contra hne
  have hb : (missingCols t).isEmpty = false := by
    cases hmc : missingCols t with
    | nil => exact absurd hmc hne
    | cons a l => rfl
  unfold build_posts_table at h
  simp [hb] at h

theorem build_ok_eq (t pt : Table) (h : build_posts_table t = .ok pt) :
    pt = postTableOf t := by
  have hm := build_ok_missing_nil t pt h
  rw [build_posts_table_ok t hm] at h
  exact (Except.ok.inj h).symm

/-- Every row of a successfully built Post table is the canonical image
of some raw row. -/
theorem mem_post_rows (t pt : Table) (h : build_posts_table t = .ok pt)
    (r : Row) (hr : r ∈ pt.rows) : ∃ r0 ∈ t.rows, r = postRow r0 := by
  rw [build_ok_eq t pt h] at hr
  simp only [postTableOf, List.mem_map, List.mem_mergeSort] at hr
  obtain ⟨q, hq, rfl⟩ := hr
  obtain ⟨r0, hr0, rfl⟩ := hq
  exact ⟨r0, hr0, (selectRow_preSortRow r0).symm⟩

/-- The one-record raw input of the spec's concrete scenario. -/
def sampleRawRow : Row :=
  [("id", .str "1"), ("shortCode", .str "abc"), ("type", .str "Image"),
   ("productType", .str "feed"), ("caption", .str "hi"),
   ("hashtags", .strList []), ("mentions", .strList []),
   ("url", .str "u1"), ("likesCount", .int 10), ("commentsCount", .int 2),
   ("timestamp", .str "2024-01-01T00:00:00.000Z"),
   ("ownerUsername", .str "alice"), ("ownerFullName", .str "Alice A"),
   ("ownerId", .str "1001"), ("isCommentsDisabled", .bool false),
   ("inputUrl", .str "p1")]

def sampleRaw : Table := ⟨required_cols, [sampleRawRow]⟩

/-- A raw table having only the `id` column (fifteen required columns
missing). -/
def sampleRawMissing : Table := ⟨["id"], []⟩

/-- C1: a raw input missing at least one required column makes the build
fail with the schema-validation error carrying exactly the missing
columns, and `main` creates or modifies no output file. -/
theorem schema_validation_failfast (t : Table) (c0 : String)
    (h1 : c0 ∈ required_cols) (h2 : c0 ∉ t.cols) :
    ∃ missing,
      build_posts_table t = .error (.schemaValidation missing) ∧
        (∀ c, c ∈ missing ↔ (c ∈ required_cols ∧ c ∉ t.cols)) ∧
        mainOutputs t = [] := by
  have hmem : c0 ∈ missingCols t := by
    simp only [missingCols, List.mem_filter, Bool.not_eq_true']
    exact ⟨h1, by simpa using h2⟩
  have hb : (missingCols t).isEmpty = false := by
    cases hmc : missingCols t with
    | nil => rw [hmc] at hmem; cases hmem
    | cons a l => rfl
  have herr : build_posts_table t = .error (.schemaValidation (missingCols t)) := by
    unfold build_posts_table
    simp [hb]
  refine ⟨missingCols t, herr, ?_, ?_⟩
  · intro c
    simp only [missingCols, List.mem_filter, Bool.not_eq_true']
    constructor
    · rintro ⟨hc1, hc2⟩
      exact ⟨hc1, by simpa using hc2⟩
    · rintro ⟨hc1, hc2⟩
      exact ⟨hc1, by simpa using hc2⟩
  · unfold mainOutputs
    rw [herr]

theorem schema_validation_failfast_witness :
    ∃ missing,
      build_posts_table sampleRawMissing = .error (.schemaValidation missing) ∧
        (∀ c, c ∈ missing ↔ (c ∈ required_cols ∧ c ∉ sampleRawMissing.cols)) ∧
        mainOutputs sampleRawMissing = [] :=
  schema_validation_failfast sampleRawMissing "shortCode" (by decide) (by decide)

/-- C2: on a valid raw input, every row of the output Post table has
`engagement_raw` equal to the elementwise sum of its `likes` and
`comments` cells. -/
theorem engagement_raw_eq (t pt : Table) (h : build_posts_table t = .ok pt) :
    ∀ r ∈ pt.rows,
      getCell r "engagement_raw" =
        addValues (getCell r "likes") (getCell r "comments") := by
  intro r hr
  obtain ⟨r0, _, rfl⟩ := mem_post_rows t pt h r hr
  rfl

theorem engagement_raw_eq_witness :
    build_posts_table sampleRaw = .ok (postTableOf sampleRaw) ∧
      ∀ r ∈ (postTableOf sampleRaw).rows,
        getCell r "engagement_raw" =
          addValues (getCell r "likes") (getCell r "comments") :=
  ⟨build_posts_table_ok sampleRaw (by decide),
   engagement_raw_eq sampleRaw (postTableOf sampleRaw)
     (build_posts_table_ok sampleRaw (by decide))⟩

theorem getCell_cons (p : String × Value) (r : Row) (c : String) :
    getCell (p :: r) c = if p.1 = c then p.2 else getCell r c := by
  rcases eq_or_ne p.1 c with h | h
  · simp [getCell, List.find?_cons_of_pos, h]
  · simp [getCell, List.find?_cons_of_neg, h]

theorem getCell_selectRow (cs : List String) (r : Row) (c : String)
    (h : c ∈ cs) : getCell (selectRow cs r) c = getCell r c := by
  induction cs with
  | nil => cases h
  | cons c0 cs ih =>
    simp only [selectRow, List.map_cons] at ih ⊢
    rw [getCell_cons]
    rcases eq_or_ne c0 c with h0 | h0
    · simp [h0]
    · have hc : c ∈ cs := by
        rcases List.mem_cons.mp h with hh | hh
        · exact absurd hh.symm h0
        · exact hh
      simp [h0, ih hc]

theorem valueDescLe_refl : ∀ v, valueDescLe v v = true := by
  intro v
  cases v <;> simp [valueDescLe, valueLe_refl]

theorem postSortLe_elim (a b : Row) (h : postSortLe a b = true) :
    valueLe (getCell a "owner_username") (getCell b "owner_username") = true ∧
      ((getCell a "owner_username") = getCell b "owner_username" →
        valueDescLe (getCell a "timestamp") (getCell b "timestamp") = true) := by
  unfold postSortLe at h
  by_cases he : getCell a "owner_username" = getCell b "owner_username"
  · rw [if_pos he] at h
    exact ⟨he ▸ valueLe_refl _, fun _ => h⟩
  · rw [if_neg he] at h
    exact ⟨h, fun hc => absurd hc he⟩

/-- C3: on a valid raw input the output Post table is ordered with
`owner_username` ascending, and between adjacent rows of one user the
earlier timestamp is ≥ the later one (missing values ordered per the
sort primitive's null placement: last in both keys). -/
theorem post_rows_sorted (t pt : Table) (h : build_posts_table t = .ok pt) :
    pt.rows.Chain' (fun a b =>
      valueLe (getCell a "owner_username") (getCell b "owner_username") = true ∧
        ((getCell a "owner_username") = getCell b "owner_username" →
          valueDescLe (getCell a "timestamp") (getCell b "timestamp") = true)) := by
  rw [build_ok_eq t pt h]
  apply List.Pairwise.chain'
  apply List.Pairwise.map
  · intro a b hab
    have h2 := postSortLe_elim a b hab
    refine ⟨?_, ?_⟩
    · rw [getCell_selectRow col_order a "owner_username" (by decide),
        getCell_selectRow col_order b "owner_username" (by decide)]
      exact h2.1
    · rw [getCell_selectRow col_order a "owner_username" (by decide),
        getCell_selectRow col_order b "owner_username" (by decide),
        getCell_selectRow col_order a "timestamp" (by decide),
        getCell_selectRow col_order b "timestamp" (by decide)]
      exact h2.2
  · exact List.sorted_mergeSort postSortLe_trans postSortLe_total _

theorem post_rows_sorted_witness :
    build_posts_table sampleRaw = .ok (postTableOf sampleRaw) ∧
      (postTableOf sampleRaw).rows.Chain' (fun a b =>
        valueLe (getCell a "owner_username") (getCell b "owner_username") = true ∧
          ((getCell a "owner_username") = getCell b "owner_username" →
            valueDescLe (getCell a "timestamp") (getCell b "timestamp") = true)) :=
  ⟨build_posts_table_ok sampleRaw (by decide),
   post_rows_sorted sampleRaw (postTableOf sampleRaw)
     (build_posts_table_ok sampleRaw (by decide))⟩

/-- Two rows agreeing on both sort keys. -/
def keyEq (a b : Row) : Prop :=
  getCell a "owner_username" = getCell b "owner_username" ∧
    getCell a "timestamp" = getCell b "timestamp"

/-- C8: step 6's sort is stable — any two rows of the pre-sort table
that compare equal on both sort keys keep their relative order in the
sorted table. -/
theorem sort_values_stable (cols : List String) (l1 l2 l3 : List Row)
    (a b : Row) (h : keyEq a b) :
    List.Sublist [a, b] (((Table.mk cols (l1 ++ a :: (l2 ++ b :: l3))).sortValues
      postSortLe).rows) := by
  have hle : postSortLe a b = true := by
    unfold postSortLe
    rw [if_pos h.1, h.2]
    exact valueDescLe_refl _
  have hsub : List.Sublist [a, b] (l1 ++ a :: (l2 ++ b :: l3)) := by
    have h1 : List.Sublist [b] (l2 ++ b :: l3) :=
      (List.Sublist.cons₂ b (List.nil_sublist l3)).trans
        (List.sublist_append_right l2 (b :: l3))
    have h2 : List.Sublist [a, b] (a :: (l2 ++ b :: l3)) :=
      List.Sublist.cons₂ a h1
    exact h2.trans (List.sublist_append_right l1 _)
  exact List.pair_sublist_mergeSort postSortLe_trans postSortLe_total hle hsub

theorem sort_values_stable_witness :
    keyEq [("owner_username", .str "alice"), ("timestamp", .null),
           ("post_id", .str "p1")]
          [("owner_username", .str "alice"), ("timestamp", .null),
           ("post_id", .str "p2")] ∧
      List.Sublist
        [[("owner_username", Value.str "alice"), ("timestamp", Value.null),
          ("post_id", Value.str "p1")],
         [("owner_username", Value.str "alice"), ("timestamp", Value.null),
          ("post_id", Value.str "p2")]]
        (((Table.mk ["owner_username", "timestamp", "post_id"]
          ([] ++ [("owner_username", Value.str "alice"), ("timestamp", Value.null),
                  ("post_id", Value.str "p1")] ::
            ([] ++ [("owner_username", Value.str "alice"), ("timestamp", Value.null),
                    ("post_id", Value.str "p2")] :: []))).sortValues
          postSortLe).rows) :=
  ⟨by constructor <;> rfl,
   sort_values_stable ["owner_username", "timestamp", "post_id"] [] [] []
     _ _ (by constructor <;> rfl)⟩

/-- The owner 4-tuple carried by a user row. -/
def UserRow.key (u : UserRow) : Value × Value × Value × Value :=
  (u.owner_username, u.owner_full_name, u.owner_id, u.owner_profile_url)

theorem mem_build_users (pt : Table) (u : UserRow) :
    u ∈ build_users_table pt ↔
      ∃ k ∈ (pt.rows.map userKey).dedup, u = mkUserRow pt.rows k := by
  unfold build_users_table
  rw [List.mem_mergeSort, List.mem_map]
  constructor
  · rintro ⟨k, hk, rfl⟩; exact ⟨k, hk, rfl⟩
  · rintro ⟨k, hk, rfl⟩; exact ⟨k, hk, rfl⟩

theorem mkUserRow_key (rows : List Row) (k : Value × Value × Value × Value) :
    (mkUserRow rows k).key = k := rfl

/-- C5: the users aggregation groups the Post rows by the exact owner
4-tuple: every post row's key — null components included — is the key of
a user row, and no two user rows share a key (each key, null-bearing or
not, is retained as its own single group). -/
theorem users_group_null_keys (pt : Table) :
    (∀ r ∈ pt.rows, ∃ u ∈ build_users_table pt, u.key = userKey r) ∧
      ((build_users_table pt).map UserRow.key).Nodup := by
  constructor
  · intro r hr
    refine ⟨mkUserRow pt.rows (userKey r), ?_, rfl⟩
    rw [mem_build_users]
    exact ⟨userKey r, List.mem_dedup.mpr (List.mem_map_of_mem _ hr), rfl⟩
  · have hperm : List.Perm (build_users_table pt)
        (((pt.rows.map userKey).dedup).map (mkUserRow pt.rows)) := by
      unfold build_users_table
      exact List.mergeSort_perm _ _
    have h2 := hperm.map UserRow.key
    have h3 : (((pt.rows.map userKey).dedup).map (mkUserRow pt.rows)).map
        UserRow.key = (pt.rows.map userKey).dedup := by
      simp [List.map_map, Function.comp_def, mkUserRow_key]
    rw [h3] at h2
    exact h2.nodup_iff.mpr (List.nodup_dedup _)

/-- A two-row Post table whose second row has a fully null owner key. -/
def samplePostsNullKey : Table :=
  ⟨col_order,
   [[("post_id", .str "a"), ("owner_username", .str "alice"),
     ("owner_full_name", .str "Alice A"), ("owner_id", .str "1001"),
     ("owner_profile_url", .str "p1"), ("likes", .int 10),
     ("comments", .int 2), ("engagement_raw", .int 12),
     ("timestamp", .ts 0)],
    [("post_id", .str "b"), ("owner_username", .null),
     ("owner_full_name", .null), ("owner_id", .null),
     ("owner_profile_url", .null), ("likes", .int 1),
     ("comments", .int 1), ("engagement_raw", .int 2),
     ("timestamp", .null)]]⟩

theorem users_group_null_keys_witness :
    (∀ r ∈ samplePostsNullKey.rows,
      ∃ u ∈ build_users_table samplePostsNullKey, u.key = userKey r) ∧
      ((build_users_table samplePostsNullKey).map UserRow.key).Nodup :=
  users_group_null_keys samplePostsNullKey

theorem getCell_postRow_timestamp (r : Row) :
    getCell (postRow r) "timestamp" =
      to_datetime_coerce (getCell r "timestamp") := rfl

theorem getCell_postRow_shortcode (r : Row) :
    getCell (postRow r) "shortcode" = getCell r "shortCode" := rfl

theorem getCell_postRow_ig_post_id (r : Row) :
    getCell (postRow r) "ig_post_id" = getCell r "id" := rfl

theorem postRow_mem (t : Table) (r : Row) (hr : r ∈ t.rows) :
    postRow r ∈ (postTableOf t).rows := by
  unfold postTableOf
  rw [← selectRow_preSortRow r]
  exact List.mem_map_of_mem _
    (List.mem_mergeSort.mpr (List.mem_map_of_mem _ hr))

/-- C6: a raw row whose timestamp string does not parse (the empty
string included) is coerced to a null timestamp: the build still
succeeds row-for-row, and the coerced row is present in the output with
a null timestamp. -/
theorem timestamp_coerce_soft (t pt : Table)
    (h : build_posts_table t = .ok pt) (r : Row) (hr : r ∈ t.rows)
    (s : String) (hts : getCell r "timestamp" = .str s)
    (hbad : parseIso s = none) :
    pt.rows.length = t.rows.length ∧
      ∃ pr ∈ pt.rows, getCell pr "timestamp" = Value.null ∧
        getCell pr "shortcode" = getCell r "shortCode" ∧
        getCell pr "ig_post_id" = getCell r "id" := by
  rw [build_ok_eq t pt h]
  constructor
  · simp [postTableOf]
  · refine ⟨postRow r, postRow_mem t r hr, ?_, rfl, rfl⟩
    rw [getCell_postRow_timestamp, hts]
    simp [to_datetime_coerce, hbad]

/-- The spec's concrete scenario with the timestamp blanked out. -/
def sampleRawBadTs : Table :=
  ⟨required_cols,
   [[("id", .str "1"), ("shortCode", .str "abc"), ("type", .str "Image"),
     ("productType", .str "feed"), ("caption", .str "hi"),
     ("hashtags", .strList []), ("mentions", .strList []),
     ("url", .str "u1"), ("likesCount", .int 10), ("commentsCount", .int 2),
     ("timestamp", .str ""), ("ownerUsername", .str "alice"),
     ("ownerFullName", .str "Alice A"), ("ownerId", .str "1001"),
     ("isCommentsDisabled", .bool false), ("inputUrl", .str "p1")]]⟩

theorem timestamp_coerce_soft_witness :
    build_posts_table sampleRawBadTs = .ok (postTableOf sampleRawBadTs) ∧
      ((postTableOf sampleRawBadTs).rows.length =
          sampleRawBadTs.rows.length ∧
        ∃ pr ∈ (postTableOf sampleRawBadTs).rows,
          getCell pr "timestamp" = Value.null ∧
            getCell pr "shortcode" =
              getCell (sampleRawBadTs.rows.head (by simp [sampleRawBadTs]))
                "shortCode" ∧
            getCell pr "ig_post_id" =
              getCell (sampleRawBadTs.rows.head (by simp [sampleRawBadTs]))
                "id") :=
  ⟨build_posts_table_ok sampleRawBadTs (by decide),
   timestamp_coerce_soft sampleRawBadTs (postTableOf sampleRawBadTs)
     (build_posts_table_ok sampleRawBadTs (by decide))
     (sampleRawBadTs.rows.head (by simp [sampleRawBadTs]))
     (by simp [sampleRawBadTs]) "" rfl rfl⟩

/-- C7: the written `posts.csv` is the CSV serialization of exactly the
18 canonical column names, in the fixed §3 order, followed by one record
per post row. -/
theorem posts_csv_shape (t pt : Table) (h : build_posts_table t = .ok pt) :
    pt.cols = ["post_id", "ig_post_id", "shortcode", "post_type",
      "product_type", "post_url", "owner_username", "owner_full_name",
      "owner_id", "owner_profile_url", "caption", "hashtags", "mentions",
      "likes", "comments", "engagement_raw", "timestamp",
      "isCommentsDisabled"] ∧
      ∃ records : List (List String),
        pt.to_csv = (renderCsvChars
          (["post_id", "ig_post_id", "shortcode", "post_type",
            "product_type", "post_url", "owner_username", "owner_full_name",
            "owner_id", "owner_profile_url", "caption", "hashtags",
            "mentions", "likes", "comments", "engagement_raw", "timestamp",
            "isCommentsDisabled"] :: records)).asString ∧
          records.length = t.rows.length := by
  have hpt := build_ok_eq t pt h
  subst hpt
  refine ⟨rfl, (postTableOf t).rows.map (fun r =>
    col_order.map (fun c => cellToString (getCell r c))), rfl, ?_⟩
  simp [postTableOf]

theorem posts_csv_shape_witness :
    build_posts_table sampleRaw = .ok (postTableOf sampleRaw) ∧
      ((postTableOf sampleRaw).cols = ["post_id", "ig_post_id", "shortcode",
        "post_type", "product_type", "post_url", "owner_username",
        "owner_full_name", "owner_id", "owner_profile_url", "caption",
        "hashtags", "mentions", "likes", "comments", "engagement_raw",
        "timestamp", "isCommentsDisabled"] ∧
        ∃ records : List (List String),
          (postTableOf sampleRaw).to_csv = (renderCsvChars
            (["post_id", "ig_post_id", "shortcode", "post_type",
              "product_type", "post_url", "owner_username",
              "owner_full_name", "owner_id", "owner_profile_url", "caption",
              "hashtags", "mentions", "likes", "comments", "engagement_raw",
              "timestamp", "isCommentsDisabled"] :: records)).asString ∧
            records.length = sampleRaw.rows.length) :=
  ⟨build_posts_table_ok sampleRaw (by decide),
   posts_csv_shape sampleRaw (postTableOf sampleRaw)
     (build_posts_table_ok sampleRaw (by decide))⟩

/-! ### C4: the per-user / global distinct `post_id` identity -/

/-- Two raw rows carrying the same `shortCode` under two different
owners: each owner group counts the shared `post_id` once, so the
per-group distinct counts sum to 2 while the table holds a single
distinct `post_id`. -/
def sampleRawDup : Table :=
  ⟨required_cols,
   [[("id", .str "1"), ("shortCode", .str "abc"), ("type", .str "Image"),
     ("productType", .str "feed"), ("caption", .str "hi"),
     ("hashtags", .strList []), ("mentions", .strList []),
     ("url", .str "u1"), ("likesCount", .int 10), ("commentsCount", .int 2),
     ("timestamp", .str "2024-01-01T00:00:00.000Z"),
     ("ownerUsername", .str "alice"), ("ownerFullName", .str "Alice A"),
     ("ownerId", .str "1001"), ("isCommentsDisabled", .bool false),
     ("inputUrl", .str "p1")],
    [("id", .str "2"), ("shortCode", .str "abc"), ("type", .str "Image"),
     ("productType", .str "feed"), ("caption", .str "yo"),
     ("hashtags", .strList []), ("mentions", .strList []),
     ("url", .str "u2"), ("likesCount", .int 3), ("commentsCount", .int 4),
     ("timestamp", .str "2024-01-02T00:00:00.000Z"),
     ("ownerUsername", .str "bob"), ("ownerFullName", .str "Bob B"),
     ("ownerId", .str "1002"), ("isCommentsDisabled", .bool false),
     ("inputUrl", .str "p2")]]⟩

/-- When the pre-sort rows are already in sort order the stable sort is
the identity, giving a `mergeSort`-free form of the output table (used
to evaluate the pipeline on concrete inputs). -/
theorem postTableOf_of_sorted (t : Table)
    (hs : (t.rows.map preSortRow).Pairwise
      (fun a b => postSortLe a b = true)) :
    postTableOf t =
      ⟨col_order, (t.rows.map preSortRow).map (selectRow col_order)⟩ := by
  unfold postTableOf
  rw [List.mergeSort_of_sorted hs]

/-- The users' `posts_count` column sums like the per-key aggregate list
(the final engagement sort permutes the rows only). -/
theorem users_posts_count_sum (pt : Table) :
    ((build_users_table pt).map (fun u => u.posts_count)).sum =
      (((pt.rows.map userKey).dedup).map
        (fun k => (mkUserRow pt.rows k).posts_count)).sum := by
  have hperm : List.Perm (build_users_table pt)
      (((pt.rows.map userKey).dedup).map (mkUserRow pt.rows)) := by
    unfold build_users_table
    exact List.mergeSort_perm _ _
  have := (hperm.map (fun u => u.posts_count)).sum_eq
  rw [this, List.map_map]
  rfl

/-- C4 (counterexample): on a valid raw input in which the same
`shortCode` occurs under two distinct owners, the sum of the user rows'
`posts_count` is not the table-wide count of distinct `post_id`
values. -/
theorem users_posts_count_counterexample :
    build_posts_table sampleRawDup = .ok (postTableOf sampleRawDup) ∧
      ¬ (((build_users_table (postTableOf sampleRawDup)).map
            (fun u => u.posts_count)).sum =
          (((postTableOf sampleRawDup).rows.map
              (fun r => getCell r "post_id")).dedup).length) := by
  refine ⟨build_posts_table_ok sampleRawDup (by decide), ?_⟩
  rw [postTableOf_of_sorted sampleRawDup (by decide), users_posts_count_sum]
  decide

theorem mkUserRow_posts_count
    (rows : List Row) (k : Value × Value × Value × Value) :
    (mkUserRow rows k).posts_count =
      ((((rows.filter (fun r => userKey r = k)).map
          (fun r => getCell r "post_id")).filter
            (fun v => !(v == Value.null))).dedup).length := rfl

theorem mkUserRow_total_engagement
    (rows : List Row) (k : Value × Value × Value × Value) :
    (mkUserRow rows k).total_engagement =
      (intCells (rows.filter (fun r => userKey r = k))
        "engagement_raw").sum := rfl

/-- C4 (amended): each user row's `total_engagement` is the
(null-skipping) sum of `engagement_raw` over that user's posts, and —
provided no `post_id` is shared between rows of two different owner
keys — the user rows' `posts_count` values sum to the table-wide count
of distinct `post_id` values. -/
theorem users_aggregation_amended (t pt : Table)
    (h : build_posts_table t = .ok pt)
    (hdisj : ∀ r1 ∈ pt.rows, ∀ r2 ∈ pt.rows,
      userKey r1 ≠ userKey r2 →
        getCell r1 "post_id" ≠ getCell r2 "post_id") :
    (((build_users_table pt).map (fun u => u.posts_count)).sum =
        ((pt.rows.map (fun r => getCell r "post_id")).dedup).length) ∧
      (∀ u ∈ build_users_table pt,
        u.total_engagement =
          (intCells (pt.rows.filter (fun r => userKey r = u.key))
            "engagement_raw").sum) := by
  constructor
  · have hstr : ∀ r ∈ pt.rows, ∃ s, getCell r "post_id" = Value.str s := by
      intro r hr
      obtain ⟨r0, _, rfl⟩ := mem_post_rows t pt h r hr
      have he : getCell (postRow r0) "post_id" =
          (getCell r0 "shortCode").astype_str := rfl
      rw [he]
      cases getCell r0 "shortCode" <;> exact ⟨_, rfl⟩
    have hsum1 := users_posts_count_sum pt
    have hcount : ∀ k, (mkUserRow pt.rows k).posts_count =
        ((pt.rows.filter (fun r => userKey r = k)).map
          (fun r => getCell r "post_id")).toFinset.card := by
      intro k
      rw [mkUserRow_posts_count]
      have hfil : ((pt.rows.filter (fun r => userKey r = k)).map
          (fun r => getCell r "post_id")).filter
            (fun v => !(v == Value.null)) =
          (pt.rows.filter (fun r => userKey r = k)).map
            (fun r => getCell r "post_id") := by
        apply List.filter_eq_self.mpr
        intro v hv
        obtain ⟨r, hr, rfl⟩ := List.mem_map.mp hv
        obtain ⟨s, hs⟩ := hstr r (List.mem_of_mem_filter hr)
        simp [hs]
      rw [hfil, List.card_toFinset]
    have hK : ((pt.rows.map userKey).dedup).Nodup := List.nodup_dedup _
    have hsum2 : (((pt.rows.map userKey).dedup).map
        (fun k => (mkUserRow pt.rows k).posts_count)).sum =
        ((pt.rows.map userKey).dedup).toFinset.sum
          (fun k => ((pt.rows.filter (fun r => userKey r = k)).map
            (fun r => getCell r "post_id")).toFinset.card) := by
      rw [List.sum_toFinset _ hK]
      exact congrArg List.sum (List.map_congr_left (fun k _ => hcount k))
    have hdisj2 : ∀ k1 ∈ ((pt.rows.map userKey).dedup).toFinset,
        ∀ k2 ∈ ((pt.rows.map userKey).dedup).toFinset, k1 ≠ k2 →
          Disjoint
            ((pt.rows.filter (fun r => userKey r = k1)).map
              (fun r => getCell r "post_id")).toFinset
            ((pt.rows.filter (fun r => userKey r = k2)).map
              (fun r => getCell r "post_id")).toFinset := by
      intro k1 _ k2 _ hne
      rw [Finset.disjoint_left]
      intro v hv1 hv2
      rw [List.mem_toFinset] at hv1 hv2
      obtain ⟨r1, hr1, hv1⟩ := List.mem_map.mp hv1
      obtain ⟨r2, hr2, hv2⟩ := List.mem_map.mp hv2
      have hk1 := (List.mem_filter.mp hr1).2
      have hk2 := (List.mem_filter.mp hr2).2
      rw [decide_eq_true_eq] at hk1 hk2
      have hne2 : userKey r1 ≠ userKey r2 := by
        rw [hk1, hk2]; exact hne
      exact hdisj r1 (List.mem_of_mem_filter hr1)
        r2 (List.mem_of_mem_filter hr2) hne2 (hv1.trans hv2.symm)
    have hbi : (((pt.rows.map userKey).dedup).toFinset.biUnion
        (fun k => ((pt.rows.filter (fun r => userKey r = k)).map
          (fun r => getCell r "post_id")).toFinset)) =
        (pt.rows.map (fun r => getCell r "post_id")).toFinset := by
      ext v
      simp only [Finset.mem_biUnion, List.mem_toFinset, List.mem_map,
        List.mem_filter, List.mem_dedup, decide_eq_true_eq]
      constructor
      · rintro ⟨k, _, r, ⟨hr, _⟩, rfl⟩
        exact ⟨r, hr, rfl⟩
      · rintro ⟨r, hr, rfl⟩
        exact ⟨userKey r, ⟨r, hr, rfl⟩, r, ⟨hr, rfl⟩, rfl⟩
    rw [hsum1, hsum2, ← Finset.card_biUnion hdisj2, hbi,
      List.card_toFinset]
  · intro u hu
    rw [mem_build_users] at hu
    obtain ⟨k, _, rfl⟩ := hu
    rw [mkUserRow_total_engagement, mkUserRow_key]

theorem users_aggregation_amended_witness :
    build_posts_table sampleRaw = .ok (postTableOf sampleRaw) ∧
      (∀ r1 ∈ (postTableOf sampleRaw).rows,
        ∀ r2 ∈ (postTableOf sampleRaw).rows,
          userKey r1 ≠ userKey r2 →
            getCell r1 "post_id" ≠ getCell r2 "post_id") ∧
      ((((build_users_table (postTableOf sampleRaw)).map
            (fun u => u.posts_count)).sum =
          (((postTableOf sampleRaw).rows.map
              (fun r => getCell r "post_id")).dedup).length) ∧
        (∀ u ∈ build_users_table (postTableOf sampleRaw),
          u.total_engagement =
            (intCells ((postTableOf sampleRaw).rows.filter
                (fun r => userKey r = u.key))
              "engagement_raw").sum)) := by
  have h1 := build_posts_table_ok sampleRaw (by decide)
  have h2 : ∀ r1 ∈ (postTableOf sampleRaw).rows,
      ∀ r2 ∈ (postTableOf sampleRaw).rows,
        userKey r1 ≠ userKey r2 →
          getCell r1 "post_id" ≠ getCell r2 "post_id" := by
    rw [postTableOf_of_sorted sampleRaw (by decide)]
    decide
  exact ⟨h1, h2,
    users_aggregation_amended sampleRaw (postTableOf sampleRaw) h1 h2⟩

/-! ### C9: CSV round trip

A standard (RFC-4180 style) CSV reader for the written file.  The
repository never reads `posts.csv` back, so the reader is modelled from
the spec's description of the artifact: records separated by line
terminators, fields separated by commas, quoted fields with doubled
inner quotes. -/

/-- Consume a quoted field after its opening quote: a doubled quote is a
literal quote, a lone closing quote ends the field.  Returns the field
and the unconsumed remainder. -/
def parseQuoted : List Char → (List Char × List Char)
  | [] => ([], [])
  | c :: rest =>
    if c = '"' then
      match rest with
      | c2 :: rest2 =>
        if c2 = '"' then
          let p := parseQuoted rest2
          ('"' :: p.1, p.2)
        else ([], rest)
      | [] => ([], [])
    else
      let p := parseQuoted rest
      (c :: p.1, p.2)

/-- Consume an unquoted field: everything up to the next delimiter or
line terminator. -/
def parseUnquoted : List Char → (List Char × List Char)
  | [] => ([], [])
  | c :: rest =>
    if c = ',' || c = '\n' then ([], c :: rest)
    else
      let p := parseUnquoted rest
      (c :: p.1, p.2)

/-- Consume one field, quoted or not. -/
def parseField : List Char → (List Char × List Char)
  | [] => ([], [])
  | c :: rest =>
    if c = '"' then parseQuoted rest else parseUnquoted (c :: rest)

/-- Consume one record: fields separated by commas, ended by a line
terminator (or the end of input).  `fuel` dominates the number of fields
(the caller passes the input length, which a comma per extra field
guarantees is enough). -/
def parseRecordF : Nat → List Char → (List (List Char) × List Char)
  | 0, _ => ([], [])
  | fuel + 1, cs =>
    let p := parseField cs
    match p.2 with
    | c :: rest2 =>
      if c = ',' then
        let q := parseRecordF fuel rest2
        (p.1 :: q.1, q.2)
      else if c = '\n' then (p.1 :: [], rest2)
      else (p.1 :: [], [])
    | [] => (p.1 :: [], [])

/-- Consume a whole file: one record per iteration; `fuel` dominates the
number of records (the caller passes the input length, which one line
terminator per record guarantees is enough). -/
def parseCsvListF : Nat → List Char → List (List (List Char))
  | 0, _ => []
  | fuel + 1, cs =>
    if cs.isEmpty then []
    else
      let p := parseRecordF (fuel + 1) cs
      p.1 :: parseCsvListF fuel p.2

/-- Modelled from the spec: the repository never reads `posts.csv` back
(only `main` writing it exists in the source), so reading the artifact
is modelled as standard CSV parsing of the file contents into string
fields — records per line terminator, fields per comma, quoted fields
unescaped. -/
def parseCsv (s : String) : List (List String) :=
  (parseCsvListF (s.data.length + 1) s.data).map
    (fun rec => rec.map (fun f => f.asString))

/-- Modelled from the spec: the table obtained by reading `posts.csv`
back — the first record gives the column labels, every further record is
one row of string-valued cells. -/
def readCsvTable (file : String) : Table :=
  match parseCsv file with
  | [] => ⟨[], []⟩
  | header :: dataRows =>
    ⟨header, dataRows.map (fun rec => header.zip (rec.map Value.str))⟩

theorem parseQuoted_dq (f : List Char) :
    ∀ rest, rest.head? ≠ some '"' →
      parseQuoted (dq f ++ '"' :: rest) = (f, rest) := by
  induction f with
  | nil =>
    intro rest hrest
    simp only [dq, List.nil_append]
    cases rest with
    | nil => simp [parseQuoted]
    | cons c2 rest2 =>
      have hne : ¬ c2 = '"' := by
        intro hc
        exact hrest (by rw [hc]; rfl)
      simp [parseQuoted, hne]
  | cons c cs ih =>
    intro rest hrest
    by_cases hc : c = '"'
    · subst hc
      simp only [dq, if_pos rfl, List.cons_append]
      simp [parseQuoted, ih rest hrest]
    · simp only [dq, if_neg hc, List.cons_append]
      rw [parseQuoted.eq_def]
      simp [hc, ih rest hrest]

theorem parseUnquoted_clean (f : List Char) :
    ∀ rest, (∀ c ∈ f, ¬ c = ',' ∧ ¬ c = '\n') →
      (rest = [] ∨ (∃ r2, rest = ',' :: r2) ∨ (∃ r2, rest = '\n' :: r2)) →
      parseUnquoted (f ++ rest) = (f, rest) := by
  induction f with
  | nil =>
    intro rest _ hrest
    rcases hrest with rfl | ⟨r2, rfl⟩ | ⟨r2, rfl⟩ <;> simp [parseUnquoted]
  | cons c cs ih =>
    intro rest hf hrest
    have hc := hf c (by simp)
    simp [parseUnquoted, hc.1, hc.2,
      ih rest (fun x hx => hf x (by simp [hx])) hrest]

theorem parseField_escape (s : String) (rest : List Char)
    (hrest : rest = [] ∨ (∃ r2, rest = ',' :: r2) ∨
      (∃ r2, rest = '\n' :: r2)) :
    parseField (escapeChars s ++ rest) = (s.data, rest) := by
  by_cases hq : needsQuote s
  · have hhead : rest.head? ≠ some '"' := by
      rcases hrest with rfl | ⟨r2, rfl⟩ | ⟨r2, rfl⟩ <;> simp
    simp only [escapeChars, if_pos hq, List.cons_append, List.append_assoc,
      List.singleton_append]
    simp [parseField, parseQuoted_dq s.data rest hhead, String.toList]
  · have hclean : ∀ c ∈ s.data, ¬ c = ',' ∧ ¬ c = '"' ∧ ¬ c = '\n' ∧
        ¬ c = '\r' := by
      intro c hc
      by_contra hcon
      apply hq
      unfold needsQuote
      rw [List.any_eq_true]
      refine ⟨c, hc, ?_⟩
      simp only [Bool.or_eq_true, decide_eq_true_eq]
      tauto
    simp only [escapeChars, if_neg hq, String.toList]
    cases hd : s.data with
    | nil =>
      rcases hrest with rfl | ⟨r2, rfl⟩ | ⟨r2, rfl⟩ <;>
        simp [parseField, parseUnquoted]
    | cons c cs =>
      have hc := hclean c (by rw [hd]; simp)
      rw [← hd]
      have hfield : parseUnquoted (s.data ++ rest) = (s.data, rest) := by
        apply parseUnquoted_clean s.data rest
        · intro x hx
          exact ⟨(hclean x hx).1, (hclean x hx).2.2.1⟩
        · exact hrest
      rw [hd] at hfield ⊢
      rw [List.cons_append] at hfield
      simp [parseField, hc.2.1, hfield]

theorem parseRecordF_render (fields : List String) :
    ∀ (fuel : Nat) (rest : List Char), fields ≠ [] →
      fields.length ≤ fuel →
      parseRecordF fuel
        (renderRecordChars (fields.map escapeChars) ++ '\n' :: rest) =
        (fields.map String.data, rest) := by
  induction fields with
  | nil => intro fuel rest hne _; exact absurd rfl hne
  | cons f fs ih =>
    intro fuel rest _ hfuel
    cases fuel with
    | zero => simp at hfuel
    | succ fuel =>
      cases fs with
      | nil =>
        simp only [List.map_cons, List.map_nil, renderRecordChars]
        rw [parseRecordF]
        rw [parseField_escape f ('\n' :: rest) (Or.inr (Or.inr ⟨rest, rfl⟩))]
        simp
      | cons f2 fs2 =>
        simp only [List.map_cons, renderRecordChars, List.append_assoc,
          List.cons_append]
        rw [parseRecordF]
        rw [show (escapeChars f ++
            (',' :: (renderRecordChars (escapeChars f2 ::
              fs2.map escapeChars) ++ '\n' :: rest))) =
          (escapeChars f ++ ',' :: (renderRecordChars (escapeChars f2 ::
            fs2.map escapeChars) ++ '\n' :: rest)) from rfl]
        rw [parseField_escape f _ (Or.inr (Or.inl ⟨_, rfl⟩))]
        have hih := ih fuel rest (by simp) (by simp at hfuel ⊢; omega)
        simp only [List.map_cons] at hih
        simp [hih]

theorem renderRecordChars_length (fs : List (List Char)) :
    fs.length ≤ (renderRecordChars fs).length + 1 := by
  induction fs with
  | nil => simp [renderRecordChars]
  | cons f fs ih =>
    cases fs with
    | nil => simp [renderRecordChars]
    | cons f2 fs2 =>
      simp only [renderRecordChars, List.length_append, List.length_cons]
        at ih ⊢
      omega

theorem renderCsvChars_length (recs : List (List String)) :
    recs.length ≤ (renderCsvChars recs).length := by
  induction recs with
  | nil => simp [renderCsvChars]
  | cons r rest ih =>
    simp only [renderCsvChars, List.map_cons, List.flatten_cons,
      List.length_append, List.length_cons] at ih ⊢
    omega

theorem renderCsvChars_fuel (recs : List (List String)) :
    ∀ r ∈ recs, r.length + recs.length ≤ (renderCsvChars recs).length + 1 := by
  induction recs with
  | nil => intro r hr; cases hr
  | cons r0 rest ih =>
    intro r hr
    have hrec := renderRecordChars_length (r0.map escapeChars)
    rw [List.length_map] at hrec
    have hrest := renderCsvChars_length rest
    have hsplit : (renderCsvChars (r0 :: rest)).length =
        (renderRecordChars (r0.map escapeChars)).length + 1 +
          (renderCsvChars rest).length := by
      simp [renderCsvChars, List.length_append]
      try omega
    rcases List.mem_cons.mp hr with rfl | hr2
    · rw [List.length_cons, hsplit]
      omega
    · have hih := ih r hr2
      rw [List.length_cons, hsplit]
      omega

theorem parseCsvListF_render (recs : List (List String)) :
    ∀ fuel : Nat, (∀ r ∈ recs, r ≠ []) →
      (∀ r ∈ recs, r.length + recs.length ≤ fuel) →
      parseCsvListF fuel (renderCsvChars recs) =
        recs.map (fun r => r.map String.data) := by
  induction recs with
  | nil =>
    intro fuel _ _
    cases fuel <;> simp [parseCsvListF, renderCsvChars]
  | cons r rest ih =>
    intro fuel hne hfuel
    cases fuel with
    | zero =>
      have := hfuel r (by simp)
      simp at this
    | succ fuel =>
      have hsplit : renderCsvChars (r :: rest) =
          renderRecordChars (r.map escapeChars) ++
            '\n' :: renderCsvChars rest := by
        simp [renderCsvChars]
      rw [hsplit, parseCsvListF]
      have hnonempty : (renderRecordChars (r.map escapeChars) ++
          '\n' :: renderCsvChars rest).isEmpty = false := by
        rw [List.isEmpty_eq_false_iff_exists_mem]
        exact ⟨'\n', by simp⟩
      rw [hnonempty]
      simp only [Bool.false_eq_true, if_false]
      rw [parseRecordF_render r (fuel + 1) (renderCsvChars rest)
        (hne r (by simp)) (by have := hfuel r (by simp); omega)]
      simp only [List.map_cons]
      rw [ih fuel (fun x hx => hne x (by simp [hx]))
        (fun x hx => by have := hfuel x (by simp [hx]); simp at this ⊢; omega)]

theorem zip_self_map (l : List String) (g : String → Value) :
    l.zip (l.map g) = l.map (fun c => (c, g c)) := by
  induction l with
  | nil => rfl
  | cons c cs ih => simp [ih]

theorem getCell_mapPair (cs : List String) (g : String → Value) (c : String)
    (h : c ∈ cs) : getCell (cs.map (fun x => (x, g x))) c = g c := by
  induction cs with
  | nil => cases h
  | cons c0 cs ih =>
    rw [List.map_cons, getCell_cons]
    rcases eq_or_ne c0 c with h0 | h0
    · simp [h0]
    · have hc : c ∈ cs := by
        rcases List.mem_cons.mp h with hh | hh
        · exact absurd hh.symm h0
        · exact hh
      simp [h0, ih hc]

/-- `post_id` is `astype(str)`-derived, so it is a string in every built
row. -/
theorem post_id_is_str (t pt : Table) (h : build_posts_table t = .ok pt) :
    ∀ r ∈ pt.rows, ∃ s, getCell r "post_id" = Value.str s := by
  intro r hr
  obtain ⟨r0, _, rfl⟩ := mem_post_rows t pt h r hr
  have he : getCell (postRow r0) "post_id" =
      (getCell r0 "shortCode").astype_str := rfl
  rw [he]
  cases getCell r0 "shortCode" <;> exact ⟨_, rfl⟩

/-- Parsing the rendered CSV of a table recovers the header and the
stringified rows exactly. -/
theorem parseCsv_to_csv (pt : Table) (hcols : pt.cols ≠ []) :
    parseCsv pt.to_csv =
      pt.cols :: pt.rows.map (fun r =>
        pt.cols.map (fun c => cellToString (getCell r c))) := by
  have hne : ∀ r ∈ (pt.cols :: pt.rows.map (fun r =>
      pt.cols.map (fun c => cellToString (getCell r c)))), r ≠ [] := by
    intro r hr
    rcases List.mem_cons.mp hr with rfl | hr2
    · exact hcols
    · obtain ⟨row, _, rfl⟩ := List.mem_map.mp hr2
      intro hnil
      exact hcols (List.map_eq_nil_iff.mp hnil)
  have hrt := parseCsvListF_render
    (pt.cols :: pt.rows.map (fun r =>
      pt.cols.map (fun c => cellToString (getCell r c))))
    ((renderCsvChars (pt.cols :: pt.rows.map (fun r =>
      pt.cols.map (fun c => cellToString (getCell r c))))).length + 1)
    hne
    (renderCsvChars_fuel (pt.cols :: pt.rows.map (fun r =>
      pt.cols.map (fun c => cellToString (getCell r c)))))
  unfold Table.to_csv parseCsv
  rw [show ((renderCsvChars (pt.cols :: pt.rows.map (fun r =>
      pt.cols.map (fun c => cellToString (getCell r c))))).asString).data
    = renderCsvChars (pt.cols :: pt.rows.map (fun r =>
      pt.cols.map (fun c => cellToString (getCell r c)))) from rfl]
  rw [hrt]
  have hid : ∀ s : String, (String.data s).asString = s := fun _ => rfl
  simp [Function.comp_def, List.map_map, hid]

/-- C9: writing the in-memory Post table to `posts.csv` and reading the
file back yields a table with the same row count and the same set of
`post_id` values. -/
theorem posts_csv_round_trip (t pt : Table)
    (h : build_posts_table t = .ok pt) :
    (readCsvTable pt.to_csv).rows.length = pt.rows.length ∧
      ∀ v, (v ∈ (readCsvTable pt.to_csv).rows.map
          (fun r => getCell r "post_id") ↔
        v ∈ pt.rows.map (fun r => getCell r "post_id")) := by
  have hcols : pt.cols = col_order := by rw [build_ok_eq t pt h]; rfl
  have hparse := parseCsv_to_csv pt (by rw [hcols]; simp [col_order])
  have hpid : "post_id" ∈ pt.cols := by rw [hcols]; decide
  have hread : readCsvTable pt.to_csv =
      ⟨pt.cols, (pt.rows.map (fun r =>
        pt.cols.map (fun c => cellToString (getCell r c)))).map
          (fun rec => pt.cols.zip (rec.map Value.str))⟩ := by
    unfold readCsvTable
    rw [hparse]
  have hlist : ((pt.rows.map (fun r =>
      pt.cols.map (fun c => cellToString (getCell r c)))).map
        (fun rec => pt.cols.zip (rec.map Value.str))).map
          (fun row => getCell row "post_id") =
      pt.rows.map (fun r => getCell r "post_id") := by
    rw [List.map_map, List.map_map]
    apply List.map_congr_left
    intro r hr
    obtain ⟨s, hs⟩ := post_id_is_str t pt h r hr
    simp only [Function.comp_apply]
    rw [List.map_map, zip_self_map,
      getCell_mapPair pt.cols _ "post_id" hpid]
    simp only [Function.comp_apply, hs]
    rfl
  refine ⟨?_, ?_⟩
  · rw [hread]
    simp
  · intro v
    rw [hread]
    show v ∈ ((pt.rows.map (fun r =>
        pt.cols.map (fun c => cellToString (getCell r c)))).map
          (fun rec => pt.cols.zip (rec.map Value.str))).map
            (fun row => getCell row "post_id") ↔ _
    rw [hlist]

theorem posts_csv_round_trip_witness :
    build_posts_table sampleRaw = .ok (postTableOf sampleRaw) ∧
      ((readCsvTable (postTableOf sampleRaw).to_csv).rows.length =
          (postTableOf sampleRaw).rows.length ∧
        ∀ v, (v ∈ (readCsvTable (postTableOf sampleRaw).to_csv).rows.map
            (fun r => getCell r "post_id") ↔
          v ∈ (postTableOf sampleRaw).rows.map
            (fun r => getCell r "post_id"))) :=
  ⟨build_posts_table_ok sampleRaw (by decide),
   posts_csv_round_trip sampleRaw (postTableOf sampleRaw)
     (build_posts_table_ok sampleRaw (by decide))⟩

/-! ### C10: the builder does not mutate its input -/

/-- A store of dataframes reachable by reference, modelling the Python
heap: local names such as `df_raw` and `df` are references into it, and
the pandas `inplace=True` operations mutate the referenced frame. -/
structure Store where
  tables : List Table

abbrev Ref := Nat

/-- Dereference (out-of-range reads give the empty frame). -/
def Store.read (σ : Store) (r : Ref) : Table :=
  σ.tables.getD r ⟨[], []⟩

/-- Mutate the frame at `r` in place. -/
def Store.write (σ : Store) (r : Ref) (tb : Table) : Store :=
  ⟨σ.tables.set r tb⟩

/-- Materialize a fresh frame (`.copy()`, or an expression such as
`df[col_order]`) and return its reference. -/
def Store.alloc (σ : Store) (tb : Table) : Store × Ref :=
  (⟨σ.tables ++ [tb]⟩, σ.tables.length)

theorem Store.read_write_self (σ : Store) (r : Ref) (tb : Table)
    (h : r < σ.tables.length) : (σ.write r tb).read r = tb := by
  simp [Store.read, Store.write, List.getD_eq_getElem?_getD,
    List.getElem?_set_self h]

theorem Store.read_write_ne (σ : Store) (r1 r2 : Ref) (tb : Table)
    (h : r1 ≠ r2) : (σ.write r1 tb).read r2 = σ.read r2 := by
  simp [Store.read, Store.write, List.getD_eq_getElem?_getD,
    List.getElem?_set_ne h]

theorem Store.read_alloc_new (σ : Store) (tb : Table) :
    (σ.alloc tb).1.read σ.tables.length = tb := by
  simp [Store.read, Store.alloc, List.getD_eq_getElem?_getD,
    List.getElem?_concat_length]

theorem Store.read_alloc_old (σ : Store) (tb : Table) (r : Ref)
    (h : r < σ.tables.length) : (σ.alloc tb).1.read r = σ.read r := by
  simp [Store.read, Store.alloc, List.getD_eq_getElem?_getD,
    List.getElem?_append_left h]

theorem Store.write_length (σ : Store) (r : Ref) (tb : Table) :
    (σ.write r tb).tables.length = σ.tables.length := by
  simp [Store.write]

theorem Store.alloc_length (σ : Store) (tb : Table) :
    (σ.alloc tb).1.tables.length = σ.tables.length + 1 := by
  simp [Store.alloc]

/-- `build_posts_table` at the reference level: the schema check reads
`df_raw`; `df_raw[required_cols].copy()` allocates a fresh frame; the
`rename`, the three column assignments and `sort_values` mutate that
fresh frame in place (`inplace=True`); `df = df[col_order]` rebinds the
local name to another fresh frame.  The input reference is never
written. -/
def build_posts_table_impl (σ : Store) (df_raw : Ref) :
    Store × Except BuildError Ref :=
  let missing := missingCols (σ.read df_raw)
  if missing.isEmpty then
    let a1 := σ.alloc ((σ.read df_raw).select required_cols)
    let σ1 := a1.1
    let df := a1.2
    let σ2 := σ1.write df ((σ1.read df).rename rename_map)
    let σ3 := σ2.write df ((σ2.read df).setCol "post_id"
      (fun r => (getCell r "shortcode").astype_str))
    let σ4 := σ3.write df ((σ3.read df).setCol "timestamp"
      (fun r => to_datetime_coerce (getCell r "timestamp")))
    let σ5 := σ4.write df ((σ4.read df).setCol "engagement_raw"
      (fun r => addValues (getCell r "likes") (getCell r "comments")))
    let σ6 := σ5.write df ((σ5.read df).sortValues postSortLe)
    let a2 := σ6.alloc ((σ6.read df).select col_order)
    (a2.1, .ok a2.2)
  else
    (σ, .error (.schemaValidation missing))

theorem Store.alloc_ref (σ : Store) (tb : Table) :
    (σ.alloc tb).2 = σ.tables.length := rfl

theorem Store.read_alloc_new' (σ : Store) (tb : Table) (r : Ref)
    (h : r = σ.tables.length) : (σ.alloc tb).1.read r = tb := by
  rw [h]
  exact Store.read_alloc_new σ tb

theorem Store.read_write_self' (σ : Store) (r1 r2 : Ref) (tb : Table)
    (h1 : r1 = r2) (h2 : r2 < σ.tables.length) :
    (σ.write r1 tb).read r2 = tb := by
  rw [h1]
  exact Store.read_write_self σ r2 tb h2

/-- C10: the reference-level builder leaves the raw table unmodified —
after the call the store still holds the identical raw table (same
columns, rows and values) at the input reference — while the result it
returns agrees with the value-level `build_posts_table` of the input. -/
theorem build_posts_table_no_mutation (σ : Store) (df_raw : Ref)
    (hlt : df_raw < σ.tables.length) :
    ((build_posts_table_impl σ df_raw).1.read df_raw = σ.read df_raw) ∧
      (∀ e, build_posts_table (σ.read df_raw) = .error e →
        (build_posts_table_impl σ df_raw).2 = .error e) ∧
      (∀ pt, build_posts_table (σ.read df_raw) = .ok pt →
        ∃ r2, (build_posts_table_impl σ df_raw).2 = .ok r2 ∧
          (build_posts_table_impl σ df_raw).1.read r2 = pt) := by
  have hne : σ.tables.length ≠ df_raw := ne_of_gt hlt
  have hlt1 : df_raw < σ.tables.length + 1 := Nat.lt_succ_of_lt hlt
  by_cases hm : (missingCols (σ.read df_raw)).isEmpty
  · refine ⟨?_, ?_, ?_⟩
    · simp only [build_posts_table_impl, hm, eq_self_iff_true, if_true,
        Store.alloc_ref, Store.read_write_ne, Store.read_alloc_old,
        Store.write_length, Store.alloc_length, ne_eq, hne, hlt, hlt1,
        not_false_eq_true]
    · intro e he
      unfold build_posts_table at he
      simp only [hm, eq_self_iff_true, if_true] at he
      cases he
    · intro pt hpt
      unfold build_posts_table at hpt
      simp only [hm, eq_self_iff_true, if_true, Except.ok.injEq] at hpt
      refine ⟨σ.tables.length + 1, ?_, ?_⟩
      · simp only [build_posts_table_impl, hm, eq_self_iff_true, if_true,
          Store.alloc_ref, Store.write_length, Store.alloc_length]
      · simp only [build_posts_table_impl, hm, eq_self_iff_true, if_true,
          Store.alloc_ref, Store.read_alloc_new', Store.read_write_self,
          Store.write_length, Store.alloc_length, Nat.lt_succ_self]
        exact hpt
  · have himpl : build_posts_table_impl σ df_raw =
        (σ, .error (.schemaValidation (missingCols (σ.read df_raw)))) := by
      unfold build_posts_table_impl
      simp [hm]
    have hbuild : build_posts_table (σ.read df_raw) =
        .error (.schemaValidation (missingCols (σ.read df_raw))) := by
      unfold build_posts_table
      simp [hm]
    refine ⟨by rw [himpl], ?_, ?_⟩
    · intro e he
      rw [hbuild] at he
      rw [himpl]
      simpa using he
    · intro pt hpt
      rw [hbuild] at hpt
      cases hpt

theorem build_posts_table_no_mutation_witness :
    (0 < (Store.mk [sampleRaw]).tables.length) ∧
      (((build_posts_table_impl (Store.mk [sampleRaw]) 0).1.read 0 =
          (Store.mk [sampleRaw]).read 0) ∧
        (∀ e, build_posts_table ((Store.mk [sampleRaw]).read 0) = .error e →
          (build_posts_table_impl (Store.mk [sampleRaw]) 0).2 = .error e) ∧
        (∀ pt, build_posts_table ((Store.mk [sampleRaw]).read 0) = .ok pt →
          ∃ r2, (build_posts_table_impl (Store.mk [sampleRaw]) 0).2 =
              .ok r2 ∧
            (build_posts_table_impl (Store.mk [sampleRaw]) 0).1.read r2 =
              pt)) :=
  ⟨by decide,
   build_posts_table_no_mutation (Store.mk [sampleRaw]) 0 (by decide)⟩

end IGDataset
